import Mathlib

/- A shallow embedding of src/lib/kernel/bitmap.c (Pintos bitmap with the
   pluggable page-allocation strategies first fit, next fit, best fit and
   buddy system inside bitmap_scan).

   A bitmap is a list of booleans: entry k of the list is bit k and the list
   length is bit_cnt.  Functions whose C originals contain ASSERTs return
   Option: none models a failing ASSERT (kernel panic).  BITMAP_ERROR is
   modelled by the result constructor ScanRes.nf; an assertion failure that
   happens inside a scan is the constructor ScanRes.panic.  The C `while`
   loops are translated structurally, with an explicit iteration budget
   passed at each call site that is at least the number of iterations the C
   loop can perform before it returns, so that running out of budget is
   unreachable; the only genuinely diverging loop (the bound-halving loop of
   the buddy branch when cnt = 0) is bounded by the caller-supplied fuel of
   bitmap_scan, and exhausting that fuel is reported as the overall result
   none.  The printf calls in the buddy branch only produce console output
   and are not modelled. -/

abbrev Bitmap := List Bool

/-- Result of bitmap_scan: a found start index, BITMAP_ERROR (nf), or a
failing ASSERT encountered while scanning (panic). -/
inductive ScanRes where
  | found : Nat → ScanRes
  | nf : ScanRes
  | panic : ScanRes
deriving Repr, DecidableEq

/-- The three static variables of bitmap_scan: latest (next-fit cursor),
check_cnt (buddy invocation counter) and check_size (cumulative size). -/
structure ScanState where
  latest : Nat
  check_cnt : Nat
  check_size : Nat
deriving Repr, DecidableEq

/-- bitmap_test: the value of bit idx; none models the ASSERT (idx < bit_cnt)
failing. -/
def bitmap_test (b : Bitmap) (idx : Nat) : Option Bool :=
  b.get? idx

/-- The loop of bitmap_contains: for i in [0, cnt), return true at the first
bit equal to value.  Bits are read with getD; every caller has already
checked the ASSERT bounds of bitmap_contains, so the default is never
taken. -/
def containsLoop (b : Bitmap) (start : Nat) (value : Bool) : Nat → Bool
  | 0 => false
  | n + 1 => if b.getD start false = value then true else containsLoop b (start + 1) value n

/-- bitmap_contains; none models one of its two ASSERTs failing. -/
def bitmap_contains (b : Bitmap) (start cnt : Nat) (value : Bool) : Option Bool :=
  if start ≤ b.length ∧ start + cnt ≤ b.length then some (containsLoop b start value cnt)
  else none

/-- bitmap_any = bitmap_contains (b, start, cnt, true). -/
def bitmap_any (b : Bitmap) (start cnt : Nat) : Option Bool :=
  bitmap_contains b start cnt true

/-- bitmap_none = !bitmap_contains (b, start, cnt, true). -/
def bitmap_none (b : Bitmap) (start cnt : Nat) : Option Bool :=
  (bitmap_contains b start cnt true).map (fun x => !x)

/-- bitmap_all = !bitmap_contains (b, start, cnt, false). -/
def bitmap_all (b : Bitmap) (start cnt : Nat) : Option Bool :=
  (bitmap_contains b start cnt false).map (fun x => !x)

/-- The loop of bitmap_count: number of bits equal to value in [start, start+cnt). -/
def countLoop (b : Bitmap) (start : Nat) (value : Bool) : Nat → Nat
  | 0 => 0
  | n + 1 => (if b.getD start false = value then 1 else 0) + countLoop b (start + 1) value n

/-- bitmap_count; none models one of its two ASSERTs failing. -/
def bitmap_count (b : Bitmap) (start cnt : Nat) (value : Bool) : Option Nat :=
  if start ≤ b.length ∧ start + cnt ≤ b.length then some (countLoop b start value cnt)
  else none

/-- The loop of bitmap_set_multiple: set cnt bits from start to value, one
bitmap_set at a time.  The wrapper has already checked the ASSERT bounds, so
every single set is in range. -/
def setLoop (b : Bitmap) (start : Nat) (value : Bool) : Nat → Bitmap
  | 0 => b
  | n + 1 => setLoop (b.set start value) (start + 1) value n

/-- bitmap_set_multiple; none models one of its two ASSERTs failing (both
ASSERTs fire before any bit is modified). -/
def bitmap_set_multiple (b : Bitmap) (start cnt : Nat) (value : Bool) : Option Bitmap :=
  if start ≤ b.length ∧ start + cnt ≤ b.length then some (setLoop b start value cnt)
  else none

/-- The first-fit search loop, shared by the first-fit branch and both
next-fit loops of bitmap_scan:
`for (i = lo; i <= ub; i++) if (!bitmap_contains (b, i, cnt, !value)) return i;`
translated structurally on the remaining iteration count, which the wrapper
sets to ub + 1 - lo, the exact number of loop tests.  Exhausting the budget
is exactly the loop condition i <= ub failing, hence the base case falls
through (nf). -/
def scanLoopN (b : Bitmap) (cnt : Nat) (value : Bool) (i : Nat) : Nat → ScanRes
  | 0 => .nf
  | n + 1 =>
    match bitmap_contains b i cnt (!value) with
    | none => .panic
    | some true => scanLoopN b cnt value (i + 1) n
    | some false => .found i

/-- The ascending search from lo to ub inclusive (first fit, and each of the
two next-fit loops). -/
def scanLoop (b : Bitmap) (cnt : Nat) (value : Bool) (ub lo : Nat) : ScanRes :=
  scanLoopN b cnt value lo (ub + 1 - lo)

/-- The inner loop of the best-fit branch (lines 362-371): starting from a
free bit i < last, advance i until i == last or bit i is true, and return
the final i.  The budget last - i is exact: the loop leaves at the latest
when i reaches last, so the base case is unreachable from the call site. -/
def bfFindEndN (b : Bitmap) (last i : Nat) : Nat → Nat
  | 0 => i + 1
  | n + 1 =>
    if i + 1 = last then i + 1
    else if b.getD (i + 1) false = true then i + 1
    else bfFindEndN b last (i + 1) n

/-- Final index of the best-fit inner loop started at a free bit i < last. -/
def bfFindEnd (b : Bitmap) (last i : Nat) : Nat :=
  bfFindEndN b last i (last - i)

/-- The outer while (true) loop of the best-fit branch (lines 345-394).  One
iteration either returns or strictly increases i, and the loop returns as
soon as i >= last, so last - i + 2 iterations always suffice; the base case
is unreachable and returns panic.  idx and size are the best candidate so
far (idx = 99999999 meaning none yet). -/
def bfLoopN (b : Bitmap) (cnt last idx size i : Nat) : Nat → ScanRes
  | 0 => .panic
  | n + 1 =>
    if i ≥ last then
      if idx = 99999999 then .nf else .found idx
    else
      match bitmap_test b i with
      | none => .panic
      | some false =>
        let i2 := bfFindEnd b last i
        match bitmap_count b i (i2 - 1 - i) false with
        | none => .panic
        | some tempSize =>
          if cnt ≤ tempSize then
            if size = 0 then bfLoopN b cnt last i tempSize i2 n
            else if size - cnt > tempSize - cnt then bfLoopN b cnt last i tempSize i2 n
            else bfLoopN b cnt last idx size i2 n
          else bfLoopN b cnt last idx size i2 n
      | some true => bfLoopN b cnt last idx size (i + 1) n

/-- The best-fit search over [start, last). -/
def bfLoop (b : Bitmap) (cnt last start : Nat) : ScanRes :=
  bfLoopN b cnt last 99999999 0 start (last - start + 2)

/-- The j-loop of the buddy branch (lines 434-451): starting at j, count
consecutive true bits into the accumulator off, stopping at the first false
bit; if j reaches limit first, the scan returns BITMAP_ERROR (inl nf); an
out-of-range bitmap_test is inl panic.  The budget limit - j + 1 covers the
loop exactly, so the base case is unreachable from the call site. -/
def buddyCountRunN (b : Bitmap) (limit : Nat) (j off : Nat) : Nat → Sum ScanRes Nat
  | 0 => Sum.inl .panic
  | n + 1 =>
    if j ≥ limit then Sum.inl .nf
    else
      match bitmap_test b j with
      | none => Sum.inl .panic
      | some true => buddyCountRunN b limit (j + 1) (off + 1) n
      | some false => Sum.inr off

/-- The buddy occupied-run measurement started at j with accumulator off. -/
def buddyCountRun (b : Bitmap) (limit : Nat) (j off : Nat) : Sum ScanRes Nat :=
  buddyCountRunN b limit j off (limit - j + 1)

/-- The if/else-if ladder of lines 453-493: round the accumulator up to the
next power of two (1,2,...,256); none models the offset > 256 case, where
the scan returns BITMAP_ERROR. -/
def buddyRound (off : Nat) : Option Nat :=
  if off > 256 then none
  else if off > 128 then some 256
  else if off > 64 then some 128
  else if off > 32 then some 64
  else if off > 16 then some 32
  else if off > 8 then some 16
  else if off > 4 then some 8
  else if off > 2 then some 4
  else if off > 1 then some 2
  else some 1

/-- The inner while (true) walk of the buddy branch (lines 424-529).  One
iteration either returns or strictly increases i (every advance is at least
1), and the walk returns once i >= limit, so limit - i + 1 iterations always
suffice; the base case is unreachable and returns panic.  off is the C
variable `offset`, which is NOT reset between occupied runs. -/
def buddyWalkN (b : Bitmap) (cnt : Nat) (value : Bool) (limit bound : Nat) (i off : Nat) :
    Nat → ScanRes
  | 0 => .panic
  | n + 1 =>
    if i ≥ limit then .nf
    else
      match bitmap_test b i with
      | none => .panic
      | some true =>
        match buddyCountRun b limit i off with
        | Sum.inl r => r
        | Sum.inr off2 =>
          match buddyRound off2 with
          | none => .nf
          | some off3 =>
            if off3 > bound * 2 then buddyWalkN b cnt value limit bound (i + off3) off3 n
            else buddyWalkN b cnt value limit bound (i + bound * 2) off3 n
      | some false =>
        if bound ≠ 0 then
          match bitmap_contains b i (bound * 2) (!value) with
          | none => .panic
          | some false => .found i
          | some true => buddyWalkN b cnt value limit bound (i + bound * 2) off n
        else
          match bitmap_test b i with
          | none => .panic
          | some false => .found i
          | some true => buddyWalkN b cnt value limit bound (i + 1) off n

/-- The buddy walk started at i with accumulator off. -/
def buddyWalk (b : Bitmap) (cnt : Nat) (value : Bool) (limit bound : Nat) (i off : Nat) :
    ScanRes :=
  buddyWalkN b cnt value limit bound i off (limit - i + 1)

/-- The outer while (true) loop of the buddy branch (lines 418-531): halve
bound until cnt > bound, then run the walk with offset 0.  When cnt = 0 the
condition cnt > bound never becomes true and the C loop spins forever; this
is the one loop bounded by the caller-supplied fuel of bitmap_scan, with
none as the out-of-fuel result. -/
def buddyOuter (b : Bitmap) (cnt : Nat) (value : Bool) (limit i : Nat) (bound : Nat) :
    Nat → Option ScanRes
  | 0 => none
  | fuel + 1 =>
    if cnt > bound / 2 then some (buddyWalk b cnt value limit (bound / 2) i 0)
    else buddyOuter b cnt value limit i (bound / 2) fuel

/-- Lines 306-309: while check_cnt < 3, every bitmap_scan call (under any
strategy) adds its cnt argument to check_size. -/
def scanStateUpd (st : ScanState) (cnt : Nat) : ScanState :=
  if st.check_cnt < 3 then { st with check_size := st.check_size + cnt } else st

/-- bitmap_scan.  pallocator is the global strategy selector (0 first fit,
1 next fit, 2 best fit, 3 buddy system); st holds the three static
variables.  The result is none only when the caller-supplied fuel cannot
cover the buddy bound-halving loop; otherwise it is the returned value
together with the new static state. -/
def bitmap_scan (pallocator : Nat) (b : Bitmap) (start cnt : Nat) (value : Bool)
    (st : ScanState) (fuel : Nat) : Option (ScanRes × ScanState) :=
  if start ≤ b.length then
    let st1 := scanStateUpd st cnt
    if cnt ≤ b.length then
      let last := b.length - cnt
      if pallocator = 0 then
        some (scanLoop b cnt value last start, st1)
      else if pallocator = 1 then
        match scanLoop b cnt value last st1.latest with
        | .found i => some (.found i, { st1 with latest := i })
        | .panic => some (.panic, st1)
        | .nf =>
          match scanLoop b cnt value st1.latest start with
          | .found i => some (.found i, { st1 with latest := i })
          | .panic => some (.panic, st1)
          | .nf => some (.nf, st1)
      else if pallocator = 2 then
        some (bfLoop b cnt last start, st1)
      else if pallocator = 3 then
        let st2 := if st1.check_cnt < 3 then { st1 with check_cnt := st1.check_cnt + 1 } else st1
        let i0 : Nat := if st1.check_cnt < 3 then 0 else st1.check_size
        if cnt > 512 then some (.nf, st2)
        else (buddyOuter b cnt value (512 + st2.check_size) i0 512 fuel).map (fun r => (r, st2))
      else some (.nf, st1)
    else some (.nf, st1)
  else some (.panic, st)

/-- bitmap_scan_and_flip: scan, and if an index was found flip the cnt bits
there to !value via bitmap_set_multiple.  The third component is the bitmap
after the call. -/
def bitmap_scan_and_flip (pallocator : Nat) (b : Bitmap) (start cnt : Nat) (value : Bool)
    (st : ScanState) (fuel : Nat) : Option (ScanRes × ScanState × Bitmap) :=
  match bitmap_scan pallocator b start cnt value st fuel with
  | none => none
  | some (res, st2) =>
    match res with
    | .found idx =>
      match bitmap_set_multiple b idx cnt (!value) with
      | some b2 => some (.found idx, st2, b2)
      | none => some (.panic, st2, b)
    | r => some (r, st2, b)

/-- The buddy walk as claim C5 describes it: identical to buddyWalkN except
that each occupied run is measured on its own (the accumulator restarts at 0
for every run), the 256 cap is applied to that single run length, and the
advance uses the rounded single-run length.  Spec-side definition, written
for comparison with the code-side buddyWalkN. -/
def specBuddyWalkN (b : Bitmap) (cnt : Nat) (value : Bool) (limit bound : Nat) (i : Nat) :
    Nat → ScanRes
  | 0 => .panic
  | n + 1 =>
    if i ≥ limit then .nf
    else
      match bitmap_test b i with
      | none => .panic
      | some true =>
        match buddyCountRun b limit i 0 with
        | Sum.inl r => r
        | Sum.inr runLen =>
          match buddyRound runLen with
          | none => .nf
          | some rnd =>
            if rnd > bound * 2 then specBuddyWalkN b cnt value limit bound (i + rnd) n
            else specBuddyWalkN b cnt value limit bound (i + bound * 2) n
      | some false =>
        if bound ≠ 0 then
          match bitmap_contains b i (bound * 2) (!value) with
          | none => .panic
          | some false => .found i
          | some true => specBuddyWalkN b cnt value limit bound (i + bound * 2) n
        else
          match bitmap_test b i with
          | none => .panic
          | some false => .found i
          | some true => specBuddyWalkN b cnt value limit bound (i + 1) n

/-- The per-run-measurement buddy walk of claim C5, started at i. -/
def specBuddyWalk (b : Bitmap) (cnt : Nat) (value : Bool) (limit bound : Nat) (i : Nat) :
    ScanRes :=
  specBuddyWalkN b cnt value limit bound i (limit - i + 1)

/- Helper lemmas about the loop primitives. -/

theorem bool_eq_not {x v : Bool} : x = !v ↔ ¬ x = v := by
  cases x <;> cases v <;> simp

theorem containsLoop_eq_true_iff (b : Bitmap) (v : Bool) :
    ∀ n i, containsLoop b i v n = true ↔ ∃ k, k < n ∧ b.getD (i + k) false = v := by
  intro n
  induction n with
  | zero => intro i; simp [containsLoop]
  | succ m ih =>
    intro i
    simp only [containsLoop]
    by_cases h : b.getD i false = v
    · simp only [h, if_true, true_iff]
      exact ⟨0, by omega, by simpa using h⟩
    · rw [if_neg h, ih (i + 1)]
      constructor
      · rintro ⟨k, hk, hv⟩
        exact ⟨k + 1, by omega, by rw [show i + (k + 1) = i + 1 + k by omega]; exact hv⟩
      · rintro ⟨k, hk, hv⟩
        match k with
        | 0 => exact absurd (by simpa using hv) h
        | k + 1 => exact ⟨k, by omega, by rw [show i + 1 + k = i + (k + 1) by omega]; exact hv⟩

theorem countLoop_le (b : Bitmap) (v : Bool) : ∀ n i, countLoop b i v n ≤ n := by
  intro n
  induction n with
  | zero => intro i; simp [countLoop]
  | succ m ih =>
    intro i
    simp only [countLoop]
    have := ih (i + 1)
    split <;> omega

theorem countLoop_all (b : Bitmap) (v : Bool) :
    ∀ n s, (∀ k, k < n → b.getD (s + k) false = v) → countLoop b s v n = n := by
  intro n
  induction n with
  | zero => intro s _; rfl
  | succ m ih =>
    intro s hall
    simp only [countLoop]
    rw [if_pos (by simpa using hall 0 (by omega)),
      ih (s + 1) (fun k hk => by
        rw [show s + 1 + k = s + (k + 1) from by omega]
        exact hall (k + 1) (by omega))]
    omega

theorem setLoop_length (v : Bool) : ∀ n (b : Bitmap) i, (setLoop b i v n).length = b.length := by
  intro n
  induction n with
  | zero => intro b i; rfl
  | succ m ih => intro b i; simp only [setLoop]; rw [ih]; simp

theorem setLoop_getD (v : Bool) :
    ∀ n (b : Bitmap) i, i + n ≤ b.length → ∀ k, k < b.length →
      (setLoop b i v n).getD k false =
        if i ≤ k ∧ k < i + n then v else b.getD k false := by
  intro n
  induction n with
  | zero =>
    intro b i _ k _
    simp only [setLoop]
    rw [if_neg (by omega)]
  | succ m ih =>
    intro b i hle k hk
    simp only [setLoop]
    rw [ih (b.set i v) (i + 1) (by rw [List.length_set]; omega) k (by rw [List.length_set]; omega)]
    by_cases hk1 : i + 1 ≤ k ∧ k < i + 1 + m
    · rw [if_pos hk1, if_pos (by omega)]
    · rw [if_neg hk1]
      by_cases hki : k = i
      · subst hki
        rw [if_pos (by omega)]
        simp only [List.getD_eq_getElem?_getD]
        rw [List.getElem?_set_self (by omega)]
        rfl
      · rw [if_neg (by omega)]
        simp only [List.getD_eq_getElem?_getD]
        rw [List.getElem?_set_ne (by omega)]

theorem scanLoopN_found_le (b : Bitmap) (cnt : Nat) (value : Bool) :
    ∀ n i j, scanLoopN b cnt value i n = .found j → j + cnt ≤ b.length := by
  intro n
  induction n with
  | zero => intro i j h; simp [scanLoopN] at h
  | succ m ih =>
    intro i j h
    rw [scanLoopN] at h
    cases hc : bitmap_contains b i cnt (!value) with
    | none => rw [hc] at h; simp at h
    | some c =>
      rw [hc] at h
      cases c with
      | true => exact ih (i + 1) j h
      | false =>
        cases h
        unfold bitmap_contains at hc
        split at hc
        · next hg => exact hg.2
        · simp at hc

theorem scanLoopN_spec (b : Bitmap) (cnt : Nat) (value : Bool) :
    ∀ n lo, lo + n + cnt ≤ b.length + 1 →
      (∃ j, scanLoopN b cnt value lo n = .found j ∧ lo ≤ j ∧ j < lo + n ∧
        (∀ k, k < cnt → b.getD (j + k) false = value) ∧
        (∀ i2, lo ≤ i2 → i2 < j → ∃ k, k < cnt ∧ b.getD (i2 + k) false = !value)) ∨
      (scanLoopN b cnt value lo n = .nf ∧
        ∀ i2, lo ≤ i2 → i2 < lo + n → ∃ k, k < cnt ∧ b.getD (i2 + k) false = !value) := by
  intro n
  induction n with
  | zero =>
    intro lo _
    right
    exact ⟨rfl, by intro i2 h1 h2; omega⟩
  | succ m ih =>
    intro lo hlen
    have hc : bitmap_contains b lo cnt (!value) = some (containsLoop b lo (!value) cnt) := by
      unfold bitmap_contains
      rw [if_pos (by omega)]
    by_cases hcl : containsLoop b lo (!value) cnt = true
    · have hfail : ∃ k, k < cnt ∧ b.getD (lo + k) false = !value :=
        (containsLoop_eq_true_iff b (!value) cnt lo).mp hcl
      rcases ih (lo + 1) (by omega) with ⟨j, h1, h2, h3, h4, h5⟩ | ⟨h1, h2⟩
      · left
        refine ⟨j, ?_, by omega, by omega, h4, ?_⟩
        · rw [scanLoopN, hc, hcl]; exact h1
        · intro i2 hi1 hi2
          by_cases h : i2 = lo
          · subst h; exact hfail
          · exact h5 i2 (by omega) hi2
      · right
        refine ⟨?_, ?_⟩
        · rw [scanLoopN, hc, hcl]; exact h1
        · intro i2 hi1 hi2
          by_cases h : i2 = lo
          · subst h; exact hfail
          · exact h2 i2 (by omega) (by omega)
    · have hcl2 : containsLoop b lo (!value) cnt = false := by
        cases hx : containsLoop b lo (!value) cnt
        · rfl
        · exact absurd hx hcl
      left
      refine ⟨lo, ?_, Nat.le_refl lo, by omega, ?_, ?_⟩
      · rw [scanLoopN, hc, hcl2]
      · intro k hk
        by_contra hne
        exact hcl ((containsLoop_eq_true_iff b (!value) cnt lo).mpr ⟨k, hk, bool_eq_not.mpr hne⟩)
      · intro i2 h1 h2; omega

theorem bfFindEndN_gt (b : Bitmap) (last : Nat) :
    ∀ m i, i < bfFindEndN b last i m := by
  intro m
  induction m with
  | zero => intro i; simp [bfFindEndN]
  | succ n ih =>
    intro i
    simp only [bfFindEndN]
    split
    · omega
    · split
      · omega
      · have := ih (i + 1); omega

theorem bfFindEndN_le (b : Bitmap) (last : Nat) :
    ∀ m i, i < last → i + m = last → bfFindEndN b last i m ≤ last := by
  intro m
  induction m with
  | zero => intro i h1 h2; omega
  | succ n ih =>
    intro i h1 h2
    simp only [bfFindEndN]
    split
    · omega
    · split
      · omega
      · exact ih (i + 1) (by omega) (by omega)

theorem bfFindEndN_false (b : Bitmap) (last : Nat) :
    ∀ m i, b.getD i false = false →
      ∀ k, i ≤ k → k < bfFindEndN b last i m → b.getD k false = false := by
  intro m
  induction m with
  | zero =>
    intro i hi k h1 h2
    simp only [bfFindEndN] at h2
    have : k = i := by omega
    rw [this]; exact hi
  | succ n ih =>
    intro i hi k h1 h2
    simp only [bfFindEndN] at h2
    split at h2
    · have : k = i := by omega
      rw [this]; exact hi
    · split at h2
      · have : k = i := by omega
        rw [this]; exact hi
      · next hbit =>
        by_cases hk : k = i
        · rw [hk]; exact hi
        · exact ih (i + 1) (Bool.eq_false_iff.mpr hbit) k (by omega) h2

theorem bfFindEnd_gt (b : Bitmap) (last i : Nat) : i < bfFindEnd b last i :=
  bfFindEndN_gt b last (last - i) i

theorem bfFindEnd_le (b : Bitmap) (last i : Nat) (h : i < last) : bfFindEnd b last i ≤ last :=
  bfFindEndN_le b last (last - i) i h (by omega)

theorem bfFindEnd_false (b : Bitmap) (last i : Nat) (hi : b.getD i false = false) :
    ∀ k, i ≤ k → k < bfFindEnd b last i → b.getD k false = false :=
  bfFindEndN_false b last (last - i) i hi

theorem bfLoopN_found_inv (b : Bitmap) (cnt : Nat) (hcnt : cnt ≤ b.length) :
    ∀ n idx size i j, bfLoopN b cnt (b.length - cnt) idx size i n = .found j →
      (idx = 99999999 ∨ (idx + cnt < b.length ∧ ∀ k, k ≤ cnt → b.getD (idx + k) false = false)) →
      j + cnt < b.length ∧ ∀ k, k ≤ cnt → b.getD (j + k) false = false := by
  intro n
  induction n with
  | zero => intro idx size i j h _; simp [bfLoopN] at h
  | succ m ih =>
    intro idx size i j h hinv
    simp only [bfLoopN] at h
    split at h
    · split at h
      · cases h
      · next hne =>
        cases h
        rcases hinv with h9 | hgood
        · exact absurd h9 hne
        · exact hgood
    · next hlt =>
      have hilt : i < b.length - cnt := by omega
      cases ht : bitmap_test b i with
      | none => rw [ht] at h; cases h
      | some v =>
        cases v with
        | true =>
          rw [ht] at h
          exact ih idx size (i + 1) j h hinv
        | false =>
          rw [ht] at h
          simp only [] at h
          cases hcount : bitmap_count b i (bfFindEnd b (b.length - cnt) i - 1 - i) false with
          | none => rw [hcount] at h; cases h
          | some tempSize =>
            rw [hcount] at h
            simp only [] at h
            have hgetD : b.getD i false = false := by
              simp only [List.getD_eq_getElem?_getD, ← List.get?_eq_getElem?]
              rw [show b.get? i = some false from ht]
              rfl
            have hgt : i < bfFindEnd b (b.length - cnt) i := bfFindEnd_gt b _ i
            have hle2 : bfFindEnd b (b.length - cnt) i ≤ b.length - cnt := bfFindEnd_le b _ i hilt
            have hts : tempSize ≤ bfFindEnd b (b.length - cnt) i - 1 - i := by
              unfold bitmap_count at hcount
              split at hcount
              · cases hcount
                exact countLoop_le b false _ i
              · cases hcount
            have hnewinv : cnt ≤ tempSize →
                i + cnt < b.length ∧ ∀ k, k ≤ cnt → b.getD (i + k) false = false := by
              intro hcle
              refine ⟨by omega, fun k hk => ?_⟩
              exact bfFindEnd_false b (b.length - cnt) i hgetD (i + k) (by omega) (by omega)
            by_cases hcle : cnt ≤ tempSize
            · rw [if_pos hcle] at h
              by_cases hsz : size = 0
              · rw [if_pos hsz] at h
                exact ih i tempSize _ j h (Or.inr (hnewinv hcle))
              · rw [if_neg hsz] at h
                by_cases hcmp : size - cnt > tempSize - cnt
                · rw [if_pos hcmp] at h
                  exact ih i tempSize _ j h (Or.inr (hnewinv hcle))
                · rw [if_neg hcmp] at h
                  exact ih idx size _ j h hinv
            · rw [if_neg hcle] at h
              exact ih idx size _ j h hinv

theorem buddyCountRunN_inl (b : Bitmap) (limit : Nat) :
    ∀ n j off r, buddyCountRunN b limit j off n = Sum.inl r → r = .nf ∨ r = .panic := by
  intro n
  induction n with
  | zero =>
    intro j off r h
    simp only [buddyCountRunN] at h
    cases h
    exact Or.inr rfl
  | succ m ih =>
    intro j off r h
    simp only [buddyCountRunN] at h
    split at h
    · cases h; exact Or.inl rfl
    · cases ht : bitmap_test b j with
      | none => rw [ht] at h; cases h; exact Or.inr rfl
      | some v =>
        rw [ht] at h
        cases v with
        | true => exact ih (j + 1) (off + 1) r h
        | false => simp at h

theorem buddyRound_pos : ∀ off r, buddyRound off = some r → 1 ≤ r := by
  intro off r h
  unfold buddyRound at h
  split_ifs at h <;> simp_all <;> omega

theorem buddyWalkN_found_range (b : Bitmap) (cnt : Nat) (value : Bool) (limit bound : Nat)
    (hmax : cnt ≤ max (bound * 2) 1) :
    ∀ n i off j, buddyWalkN b cnt value limit bound i off n = .found j → j + cnt ≤ b.length := by
  intro n
  induction n with
  | zero => intro i off j h; simp [buddyWalkN] at h
  | succ m ih =>
    intro i off j h
    rw [buddyWalkN] at h
    split at h
    · cases h
    · cases ht : bitmap_test b i with
      | none => simp only [ht] at h; cases h
      | some v =>
        cases v with
        | true =>
          simp only [ht] at h
          cases hcr : buddyCountRun b limit i off with
          | inl r =>
            simp only [hcr] at h
            rcases buddyCountRunN_inl b limit _ i off r hcr with h2 | h2 <;> (rw [h2] at h; cases h)
          | inr off2 =>
            simp only [hcr] at h
            cases hrd : buddyRound off2 with
            | none => simp only [hrd] at h; cases h
            | some off3 =>
              simp only [hrd] at h
              split at h
              · exact ih (i + off3) off3 j h
              · exact ih (i + bound * 2) off3 j h
        | false =>
          simp only [ht] at h
          by_cases hb0 : bound ≠ 0
          · rw [if_pos hb0] at h
            cases hc : bitmap_contains b i (bound * 2) (!value) with
            | none => simp only [hc] at h; cases h
            | some c =>
              simp only [hc] at h
              cases c with
              | true => exact ih (i + bound * 2) off j h
              | false =>
                cases h
                unfold bitmap_contains at hc
                split at hc
                · next hg =>
                  have hbound1 : 1 ≤ bound := by omega
                  have hcle : cnt ≤ bound * 2 := by
                    have : max (bound * 2) 1 = bound * 2 := by omega
                    omega
                  omega
                · cases hc
          · rw [if_neg hb0] at h
            have hbz : bound = 0 := by omega
            cases h
            have hlen : i < b.length := by
              have := List.get?_eq_some.mp (show b.get? i = some false from ht)
              exact this.1
            have : cnt ≤ 1 := by
              subst hbz
              simpa using hmax
            omega

/-- The values the buddy bound variable can take: 512 and its iterated
halves. -/
def BOk (n : Nat) : Prop :=
  n = 512 ∨ n = 256 ∨ n = 128 ∨ n = 64 ∨ n = 32 ∨ n = 16 ∨ n = 8 ∨ n = 4 ∨ n = 2 ∨ n = 1 ∨ n = 0

theorem BOk_half {n : Nat} (h : BOk n) : BOk (n / 2) := by
  rcases h with h|h|h|h|h|h|h|h|h|h|h <;> subst h <;> (unfold BOk; omega)

theorem buddyOuter_found_range (b : Bitmap) (value : Bool) (limit i0 cnt : Nat) :
    ∀ fuel bound, BOk bound → cnt ≤ bound →
      ∀ r j, buddyOuter b cnt value limit i0 bound fuel = some r → r = .found j →
        j + cnt ≤ b.length := by
  intro fuel
  induction fuel with
  | zero => intro bound _ _ r j h _; simp [buddyOuter] at h
  | succ m ih =>
    intro bound hB hc r j h hr
    simp only [buddyOuter] at h
    split at h
    · next hgt =>
      cases h
      have hmax : cnt ≤ max ((bound / 2) * 2) 1 := by
        rcases hB with h|h|h|h|h|h|h|h|h|h|h <;> subst h <;> omega
      unfold buddyWalk at hr
      exact buddyWalkN_found_range b cnt value limit (bound / 2) hmax _ i0 0 j hr
    · next hle =>
      exact ih (bound / 2) (BOk_half hB) (by omega) r j h hr

theorem buddyOuter_zero (b : Bitmap) (value : Bool) (limit i0 : Nat) :
    ∀ fuel bound, buddyOuter b 0 value limit i0 bound fuel = none := by
  intro fuel
  induction fuel with
  | zero => intro bound; rfl
  | succ m ih =>
    intro bound
    simp only [buddyOuter]
    rw [if_neg (by omega)]
    exact ih (bound / 2)

theorem scan_found_range (pal : Nat) (b : Bitmap) (start cnt : Nat) (value : Bool)
    (st : ScanState) (fuel : Nat) (j : Nat) (st2 : ScanState)
    (h : bitmap_scan pal b start cnt value st fuel = some (.found j, st2)) :
    j + cnt ≤ b.length := by
  simp only [bitmap_scan] at h
  split at h
  · split at h
    · next hcle =>
      split at h
      · simp only [Option.some.injEq, Prod.mk.injEq] at h
        obtain ⟨h1, -⟩ := h
        unfold scanLoop at h1
        exact scanLoopN_found_le b cnt value _ start j h1
      · split at h
        · cases hm1 : scanLoop b cnt value (b.length - cnt) (scanStateUpd st cnt).latest with
          | found i =>
            rw [hm1] at h
            simp only [Option.some.injEq, Prod.mk.injEq, ScanRes.found.injEq] at h
            obtain ⟨h1, -⟩ := h
            subst h1
            unfold scanLoop at hm1
            exact scanLoopN_found_le b cnt value _ _ _ hm1
          | panic => rw [hm1] at h; simp at h
          | nf =>
            rw [hm1] at h
            cases hm2 : scanLoop b cnt value (scanStateUpd st cnt).latest start with
            | found i =>
              rw [hm2] at h
              simp only [Option.some.injEq, Prod.mk.injEq, ScanRes.found.injEq] at h
              obtain ⟨h1, -⟩ := h
              subst h1
              unfold scanLoop at hm2
              exact scanLoopN_found_le b cnt value _ _ _ hm2
            | panic => rw [hm2] at h; simp at h
            | nf => rw [hm2] at h; simp at h
        · split at h
          · simp only [Option.some.injEq, Prod.mk.injEq] at h
            obtain ⟨h1, -⟩ := h
            unfold bfLoop at h1
            have := bfLoopN_found_inv b cnt hcle _ 99999999 0 start j h1 (Or.inl rfl)
            omega
          · split at h
            · split at h
              · simp at h
              · next hle512 =>
                cases ho : buddyOuter b cnt value
                    (512 + (if (scanStateUpd st cnt).check_cnt < 3 then
                        { scanStateUpd st cnt with
                            check_cnt := (scanStateUpd st cnt).check_cnt + 1 }
                      else scanStateUpd st cnt).check_size)
                    (if (scanStateUpd st cnt).check_cnt < 3 then 0
                      else (scanStateUpd st cnt).check_size) 512 fuel with
                | none => rw [ho] at h; simp at h
                | some r =>
                  rw [ho] at h
                  simp only [Option.map_some', Option.some.injEq, Prod.mk.injEq] at h
                  obtain ⟨h1, -⟩ := h
                  exact buddyOuter_found_range b value _ _ cnt fuel 512 (Or.inl rfl)
                    (by omega) r j ho h1
            · simp at h
    · simp at h
  · simp at h

theorem buddyCountRunN_shift (b : Bitmap) (limit : Nat) :
    ∀ n j off, buddyCountRunN b limit j off n =
      match buddyCountRunN b limit j 0 n with
      | Sum.inl r => Sum.inl r
      | Sum.inr k => Sum.inr (off + k) := by
  intro n
  induction n with
  | zero => intro j off; rfl
  | succ m ih =>
    intro j off
    simp only [buddyCountRunN]
    split
    · rfl
    · cases ht : bitmap_test b j with
      | none => rfl
      | some v =>
        cases v with
        | false => simp
        | true =>
          rw [ih (j + 1) (off + 1), ih (j + 1) 1]
          cases hbase : buddyCountRunN b limit (j + 1) 0 m with
          | inl r => rfl
          | inr k =>
            simp only [Sum.inr.injEq]
            omega

theorem buddyWalkN_fuel (b : Bitmap) (cnt : Nat) (value : Bool) (limit bound : Nat) :
    ∀ n m i off, limit + 1 - i ≤ n → limit + 1 - i ≤ m → 1 ≤ n → 1 ≤ m →
      buddyWalkN b cnt value limit bound i off n = buddyWalkN b cnt value limit bound i off m := by
  intro n
  induction n with
  | zero => intro m i off h1 h2 h3 h4; omega
  | succ n1 ih =>
    intro m i off h1 h2 h3 h4
    match m with
    | 0 => omega
    | m1 + 1 =>
      simp only [buddyWalkN]
      by_cases hge : i ≥ limit
      · rw [if_pos hge, if_pos hge]
      · rw [if_neg hge, if_neg hge]
        cases ht : bitmap_test b i with
        | none => rfl
        | some v =>
          cases v with
          | true =>
            dsimp only
            cases hcr : buddyCountRun b limit i off with
            | inl r => rfl
            | inr off2 =>
              dsimp only
              cases hrd : buddyRound off2 with
              | none => rfl
              | some off3 =>
                dsimp only
                have hpos := buddyRound_pos off2 off3 hrd
                by_cases hcmp : off3 > bound * 2
                · rw [if_pos hcmp, if_pos hcmp]
                  exact ih m1 (i + off3) off3 (by omega) (by omega) (by omega) (by omega)
                · rw [if_neg hcmp, if_neg hcmp]
                  exact ih m1 (i + bound * 2) off3 (by omega) (by omega) (by omega) (by omega)
          | false =>
            dsimp only
            by_cases hb0 : bound ≠ 0
            · rw [if_pos hb0, if_pos hb0]
              cases hc : bitmap_contains b i (bound * 2) (!value) with
              | none => rfl
              | some c =>
                cases c with
                | false => rfl
                | true =>
                  dsimp only
                  exact ih m1 (i + bound * 2) off (by omega) (by omega) (by omega) (by omega)
            · rw [if_neg hb0, if_neg hb0]

theorem scanStateUpd_check_cnt (st : ScanState) (cnt : Nat) :
    (scanStateUpd st cnt).check_cnt = st.check_cnt := by
  unfold scanStateUpd
  split <;> rfl

theorem scanStateUpd_latest (st : ScanState) (cnt : Nat) :
    (scanStateUpd st cnt).latest = st.latest := by
  unfold scanStateUpd
  split <;> rfl

theorem scanStateUpd_check_size (st : ScanState) (cnt : Nat) :
    (scanStateUpd st cnt).check_size =
      if st.check_cnt < 3 then st.check_size + cnt else st.check_size := by
  unfold scanStateUpd
  split <;> rfl

/-- The 20-bit vector of the first-fit example: free exactly on [5, 10). -/
def exFF : Bitmap :=
  [true, true, true, true, true, false, false, false, false, false,
   true, true, true, true, true, true, true, true, true, true]

/-- The 20-bit vector of the best-fit example: a free run of length 4 at
offset 0 and a free run of length 2 at offset 10. -/
def exBest : Bitmap :=
  [false, false, false, false, true, true, true, true, true, true,
   false, false, true, true, true, true, true, true, true, true]

/-- A 14-bit vector for the buddy accumulator counterexample: occupied runs
of length 3 at 0 and length 1 at 4, free elsewhere. -/
def v14 : Bitmap :=
  [true, true, true, false, true, false, false,
   false, false, false, false, false, false, false]

/-- Claim C1 (code_bug evidence): with FirstFit, a one-bit bitmap, start = 1
and count = 0, bitmap_scan returns index 1 (the start argument), not the
index 0 the claim and the doc comment of bitmap_scan_and_flip promise: no
branch of bitmap_scan special-cases count = 0.  The static state is
unchanged and the bitmap is never written (scan takes it read-only). -/
theorem c1_count_zero_returns_start :
    bitmap_scan 0 [false] 1 0 false ⟨0, 0, 0⟩ 1 = some (.found 1, ⟨0, 0, 0⟩) := by
  decide

/-- Claim C4 (code_bug evidence): under the BuddySystem strategy a request
with count = 0 never terminates: the bound-halving loop never reaches a bound
with cnt > bound (0 > bound is false for every bound), so the scan exhausts
every fuel budget, for every bitmap, start within range, value and state. -/
theorem c4_buddy_count_zero_diverges (b : Bitmap) (start : Nat) (value : Bool)
    (st : ScanState) (fuel : Nat) (h : start ≤ b.length) :
    bitmap_scan 3 b start 0 value st fuel = none := by
  simp only [bitmap_scan]
  rw [if_pos h, if_pos (Nat.zero_le _)]
  norm_num
  rw [buddyOuter_zero]

/-- Witness for c4_buddy_count_zero_diverges at a concrete input. -/
theorem c4_buddy_count_zero_diverges_witness :
    bitmap_scan 3 [false] 0 0 false ⟨0, 0, 0⟩ 7 = none :=
  c4_buddy_count_zero_diverges [false] 0 false ⟨0, 0, 0⟩ 7 (by decide)

/-- Claim C9: the best-fit branch never reads its value argument (it always
tests bits against false), so under strategy 2 the scan result and state are
identical for value = true and value = false, for every bitmap, start, count,
state and fuel. -/
theorem c9_best_fit_value_independent (b : Bitmap) (start cnt : Nat) (st : ScanState)
    (fuel : Nat) :
    bitmap_scan 2 b start cnt true st fuel = bitmap_scan 2 b start cnt false st fuel := by
  simp only [bitmap_scan]
  by_cases h1 : start ≤ b.length
  · rw [if_pos h1, if_pos h1]
    by_cases h2 : cnt ≤ b.length
    · rw [if_pos h2, if_pos h2]
      norm_num
    · rw [if_neg h2, if_neg h2]
  · rw [if_neg h1, if_neg h1]

/-- Claim C10: with count 0 and any start within range, contains and any are
some false, none and all are some true, and count is some 0: the loops run
zero iterations and the ASSERT bounds degenerate to start <= bit_cnt. -/
theorem c10_empty_range (b : Bitmap) (start : Nat) (value : Bool) (h : start ≤ b.length) :
    bitmap_contains b start 0 value = some false ∧
    bitmap_any b start 0 = some false ∧
    bitmap_none b start 0 = some true ∧
    bitmap_all b start 0 = some true ∧
    bitmap_count b start 0 value = some 0 := by
  have hg : start ≤ b.length ∧ start + 0 ≤ b.length := ⟨h, by omega⟩
  unfold bitmap_any bitmap_none bitmap_all bitmap_count bitmap_contains
  rw [if_pos hg]
  simp only [if_pos hg, Option.map_some']
  exact ⟨rfl, rfl, rfl, rfl, rfl⟩

/-- Witness for c10_empty_range at a concrete input. -/
theorem c10_empty_range_witness :
    bitmap_contains [true] 1 0 false = some false ∧
    bitmap_any [true] 1 0 = some false ∧
    bitmap_none [true] 1 0 = some true ∧
    bitmap_all [true] 1 0 = some true ∧
    bitmap_count [true] 1 0 false = some 0 :=
  c10_empty_range [true] 1 false (by decide)

/-- Claim C3 counterexample: a single FirstFit scan (strategy 0, so no buddy
invocation has ever happened) from the fresh static state already adds its
count 5 to the cumulative-size accumulator check_size, so the accumulator
does not sum only the counts of buddy-strategy invocations. -/
theorem c3_counterexample :
    bitmap_scan 0 [false, false, false, false, false] 0 5 false ⟨0, 0, 0⟩ 1 =
      some (.found 0, ⟨0, 0, 5⟩) := by
  decide

/-- Claim C6: under FirstFit (strategy 0), for start <= N and 1 <= count <= N,
bitmap_scan returns the smallest index i in [start, N - count] whose count
bits all equal value (together with the entry-updated static state), and
NOT_FOUND exactly when no such index exists. -/
theorem c6_first_fit (b : Bitmap) (start cnt : Nat) (value : Bool) (st : ScanState)
    (fuel : Nat) (h1 : start ≤ b.length) (_h2 : 1 ≤ cnt) (h3 : cnt ≤ b.length) :
    match bitmap_scan 0 b start cnt value st fuel with
    | some (.found i, st2) =>
        st2 = scanStateUpd st cnt ∧ start ≤ i ∧ i ≤ b.length - cnt ∧
        (∀ k, k < cnt → b.getD (i + k) false = value) ∧
        (∀ j, start ≤ j → j < i → ∃ k, k < cnt ∧ b.getD (j + k) false = !value)
    | some (.nf, st2) =>
        st2 = scanStateUpd st cnt ∧
        ∀ j, start ≤ j → j ≤ b.length - cnt → ∃ k, k < cnt ∧ b.getD (j + k) false = !value
    | _ => False := by
  have hscan : bitmap_scan 0 b start cnt value st fuel =
      some (scanLoop b cnt value (b.length - cnt) start, scanStateUpd st cnt) := by
    simp only [bitmap_scan]
    rw [if_pos h1, if_pos h3]
    norm_num
  rw [hscan]
  unfold scanLoop
  by_cases hse : start ≤ b.length - cnt
  · rcases scanLoopN_spec b cnt value (b.length - cnt + 1 - start) start (by omega) with
      ⟨j, hj1, hj2, hj3, hj4, hj5⟩ | ⟨hnf, hall⟩
    · rw [hj1]
      exact ⟨rfl, hj2, by omega, hj4, hj5⟩
    · rw [hnf]
      exact ⟨rfl, fun j hja hjb => hall j hja (by omega)⟩
  · rw [show b.length - cnt + 1 - start = 0 from by omega]
    exact ⟨rfl, fun j hja hjb => absurd (Nat.le_trans hja hjb) (by omega)⟩

/-- Witness for c6_first_fit: the spec example (20 bits, free only on [5,10),
scan(0, 3, false)) returns index 5. -/
theorem c6_first_fit_witness :
    bitmap_scan 0 exFF 0 3 false ⟨0, 0, 0⟩ 1 = some (.found 5, ⟨0, 0, 3⟩) ∧
    match bitmap_scan 0 exFF 0 3 false ⟨0, 0, 0⟩ 1 with
    | some (.found i, st2) =>
        st2 = scanStateUpd ⟨0, 0, 0⟩ 3 ∧ 0 ≤ i ∧ i ≤ exFF.length - 3 ∧
        (∀ k, k < 3 → exFF.getD (i + k) false = false) ∧
        (∀ j, 0 ≤ j → j < i → ∃ k, k < 3 ∧ exFF.getD (j + k) false = !false)
    | some (.nf, st2) =>
        st2 = scanStateUpd ⟨0, 0, 0⟩ 3 ∧
        ∀ j, 0 ≤ j → j ≤ exFF.length - 3 → ∃ k, k < 3 ∧ exFF.getD (j + k) false = !false
    | _ => False :=
  ⟨by decide, c6_first_fit exFF 0 3 false ⟨0, 0, 0⟩ 1 (by decide) (by decide) (by decide)⟩

/-- Claim C7 counterexample: NextFit with the (reachable) cursor latest = 1, a
2-bit all-true bitmap and count = 2, so last = 0: the first search is empty,
the wrap search finds nothing in [0, 0] and then probes i = 1, where
bitmap_contains hits its ASSERT (1 + 2 > 2): the scan ends in an assertion
failure (panic) instead of returning NOT_FOUND as the claim states. -/
theorem c7_counterexample :
    bitmap_scan 1 [true, true] 0 2 false ⟨1, 0, 0⟩ 1 = some (.panic, ⟨1, 0, 2⟩) := by
  decide

/-- Claim C7 (amended): provided the stored cursor satisfies
latest <= N - count (in addition to start <= N and count <= N), NextFit
behaves exactly as claimed: it first searches [latest, N - count] ascending,
returning the first qualifying index and storing it in latest; on failure it
wraps and searches [start, latest] inclusive, again returning and storing the
first qualifying index; if both searches fail it returns NOT_FOUND with
latest unchanged.  (When latest > N - count and the wrap search exhausts
[start, N - count], the scan instead dies on a bitmap_contains ASSERT, as
c7_counterexample shows.) -/
theorem c7_next_fit_amended (b : Bitmap) (start cnt : Nat) (value : Bool) (st : ScanState)
    (fuel : Nat) (h1 : start ≤ b.length) (h3 : cnt ≤ b.length)
    (h4 : st.latest ≤ b.length - cnt) :
    match bitmap_scan 1 b start cnt value st fuel with
    | some (.found i, st2) =>
        st2 = { scanStateUpd st cnt with latest := i } ∧
        (∀ k, k < cnt → b.getD (i + k) false = value) ∧
        ((st.latest ≤ i ∧ i ≤ b.length - cnt ∧
           ∀ j, st.latest ≤ j → j < i → ∃ k, k < cnt ∧ b.getD (j + k) false = !value) ∨
         ((∀ j, st.latest ≤ j → j ≤ b.length - cnt →
             ∃ k, k < cnt ∧ b.getD (j + k) false = !value) ∧
          start ≤ i ∧ i ≤ st.latest ∧
          ∀ j, start ≤ j → j < i → ∃ k, k < cnt ∧ b.getD (j + k) false = !value))
    | some (.nf, st2) =>
        st2 = scanStateUpd st cnt ∧
        (∀ j, st.latest ≤ j → j ≤ b.length - cnt →
          ∃ k, k < cnt ∧ b.getD (j + k) false = !value) ∧
        (∀ j, start ≤ j → j ≤ st.latest → ∃ k, k < cnt ∧ b.getD (j + k) false = !value)
    | _ => False := by
  have hu : (scanStateUpd st cnt).latest = st.latest := scanStateUpd_latest st cnt
  have hscan : bitmap_scan 1 b start cnt value st fuel =
      (match scanLoop b cnt value (b.length - cnt) st.latest with
       | .found i => some (.found i, { scanStateUpd st cnt with latest := i })
       | .panic => some (.panic, scanStateUpd st cnt)
       | .nf =>
         match scanLoop b cnt value st.latest start with
         | .found i => some (.found i, { scanStateUpd st cnt with latest := i })
         | .panic => some (.panic, scanStateUpd st cnt)
         | .nf => some (.nf, scanStateUpd st cnt)) := by
    simp only [bitmap_scan]
    rw [if_pos h1, if_pos h3, hu]
    norm_num
  rw [hscan]
  unfold scanLoop
  rcases scanLoopN_spec b cnt value (b.length - cnt + 1 - st.latest) st.latest (by omega) with
    ⟨j, hj1, hj2, hj3, hj4, hj5⟩ | ⟨hnf, hall⟩
  · rw [hj1]
    exact ⟨rfl, hj4, Or.inl ⟨hj2, by omega, hj5⟩⟩
  · rw [hnf]
    have hfirst : ∀ j, st.latest ≤ j → j ≤ b.length - cnt →
        ∃ k, k < cnt ∧ b.getD (j + k) false = !value :=
      fun j hja hjb => hall j hja (by omega)
    by_cases hsl : start ≤ st.latest
    · rcases scanLoopN_spec b cnt value (st.latest + 1 - start) start (by omega) with
        ⟨j2, hk1, hk2, hk3, hk4, hk5⟩ | ⟨hnf2, hall2⟩
      · rw [hk1]
        exact ⟨rfl, hk4, Or.inr ⟨hfirst, hk2, by omega, hk5⟩⟩
      · rw [hnf2]
        exact ⟨rfl, hfirst, fun j hja hjb => hall2 j hja (by omega)⟩
    · rw [show st.latest + 1 - start = 0 from by omega]
      exact ⟨rfl, hfirst, fun j hja hjb => absurd (Nat.le_trans hja hjb) (by omega)⟩

/-- Witness for c7_next_fit_amended: a 10-bit bitmap used on [0,4), free
elsewhere, cursor latest = 4, scan(0, 2, false) finds index 4 in the first
search and stores it in latest. -/
theorem c7_next_fit_amended_witness :
    bitmap_scan 1 [true, true, true, true, false, false, false, false, false, false]
        0 2 false ⟨4, 0, 0⟩ 1 = some (.found 4, ⟨4, 0, 2⟩) ∧
    match bitmap_scan 1 [true, true, true, true, false, false, false, false, false, false]
        0 2 false ⟨4, 0, 0⟩ 1 with
    | some (.found i, st2) =>
        st2 = { scanStateUpd ⟨4, 0, 0⟩ 2 with latest := i } ∧
        (∀ k, k < 2 →
          List.getD [true, true, true, true, false, false, false, false, false, false]
            (i + k) false = false) ∧
        ((4 ≤ i ∧
            i ≤ List.length [true, true, true, true, false, false, false, false, false, false]
              - 2 ∧
           ∀ j, 4 ≤ j → j < i → ∃ k, k < 2 ∧
             List.getD [true, true, true, true, false, false, false, false, false, false]
               (j + k) false = !false) ∨
         ((∀ j, 4 ≤ j →
             j ≤ List.length [true, true, true, true, false, false, false, false, false, false]
               - 2 →
             ∃ k, k < 2 ∧
               List.getD [true, true, true, true, false, false, false, false, false, false]
                 (j + k) false = !false) ∧
          0 ≤ i ∧ i ≤ 4 ∧
          ∀ j, 0 ≤ j → j < i → ∃ k, k < 2 ∧
            List.getD [true, true, true, true, false, false, false, false, false, false]
              (j + k) false = !false))
    | some (.nf, st2) =>
        st2 = scanStateUpd ⟨4, 0, 0⟩ 2 ∧
        (∀ j, 4 ≤ j →
          j ≤ List.length [true, true, true, true, false, false, false, false, false, false]
            - 2 →
          ∃ k, k < 2 ∧
            List.getD [true, true, true, true, false, false, false, false, false, false]
              (j + k) false = !false) ∧
        (∀ j, 0 ≤ j → j ≤ 4 → ∃ k, k < 2 ∧
          List.getD [true, true, true, true, false, false, false, false, false, false]
            (j + k) false = !false)
    | _ => False :=
  ⟨by decide,
    c7_next_fit_amended [true, true, true, true, false, false, false, false, false, false]
      0 2 false ⟨4, 0, 0⟩ 1 (by decide) (by decide) (by decide)⟩

/-- Claim C2 counterexample: on the spec example vector (free run of length 4
at offset 0, free run of length 2 at offset 10), BestFit with count = 2 and
value = false returns 0, not the 10 the claim states: the implementation
measures each free run as one less than its length (bitmap_count over
i - 1 - temp_i bits), so the exact-fit run at 10 measures 1 < 2 and is
rejected, while the run at 0 measures 3 and wins. -/
theorem c2_counterexample :
    bitmap_scan 2 exBest 0 2 false ⟨0, 0, 0⟩ 1 = some (.found 0, ⟨0, 0, 2⟩) := by
  decide

/-- Scan-level corollary of the best-fit measurement: every index the
best-fit branch returns starts at least count + 1 consecutive free (false)
bits lying inside the bitmap, because each maximal run is measured as its
length minus one and must measure at least count to qualify. -/
theorem best_fit_found_free_run (b : Bitmap) (start cnt : Nat) (value : Bool) (st : ScanState)
    (fuel : Nat) (idx : Nat) (st2 : ScanState)
    (h : bitmap_scan 2 b start cnt value st fuel = some (.found idx, st2)) :
    idx + cnt < b.length ∧ ∀ k, k ≤ cnt → b.getD (idx + k) false = false := by
  simp only [bitmap_scan] at h
  split at h
  · split at h
    · next hcle =>
      norm_num at h
      obtain ⟨h1, -⟩ := h
      unfold bfLoop at h1
      exact bfLoopN_found_inv b cnt hcle _ 99999999 0 start idx h1 (Or.inl rfl)
    · simp at h
  · simp at h

/-- Concrete instance of best_fit_found_free_run: the index 0 returned on
the example vector starts 3 consecutive free bits. -/
theorem best_fit_found_free_run_example :
    0 + 2 < exBest.length ∧ ∀ k, k ≤ 2 → exBest.getD (0 + k) false = false :=
  best_fit_found_free_run exBest 0 2 false ⟨0, 0, 0⟩ 1 0 ⟨0, 0, 2⟩ (by decide)

/-- Claim C8: bitmap_scan_and_flip returns exactly the pair produced by
bitmap_scan; when the result is a found index it sets the cnt bits at that
index to !value and leaves every other bit unchanged; when the result is
NOT_FOUND (or an assertion failure inside the scan) the bitmap is left
entirely unmodified. -/
theorem c8_scan_and_flip (pal : Nat) (b : Bitmap) (start cnt : Nat) (value : Bool)
    (st : ScanState) (fuel : Nat) (res : ScanRes) (st2 : ScanState)
    (h : bitmap_scan pal b start cnt value st fuel = some (res, st2)) :
    ∃ b2, bitmap_scan_and_flip pal b start cnt value st fuel = some (res, st2, b2) ∧
      (res = .nf → b2 = b) ∧ (res = .panic → b2 = b) ∧
      (∀ idx, res = .found idx → b2.length = b.length ∧
        ∀ k, k < b.length → b2.getD k false =
          if idx ≤ k ∧ k < idx + cnt then !value else b.getD k false) := by
  unfold bitmap_scan_and_flip
  rw [h]
  cases res with
  | nf =>
    exact ⟨b, rfl, fun _ => rfl, fun _ => rfl, fun idx hidx => by cases hidx⟩
  | panic =>
    exact ⟨b, rfl, fun _ => rfl, fun _ => rfl, fun idx hidx => by cases hidx⟩
  | found idx =>
    have hrange := scan_found_range pal b start cnt value st fuel idx st2 h
    have hsm : bitmap_set_multiple b idx cnt (!value) = some (setLoop b idx (!value) cnt) := by
      unfold bitmap_set_multiple
      rw [if_pos ⟨by omega, hrange⟩]
    refine ⟨setLoop b idx (!value) cnt, ?_, ?_, ?_, ?_⟩
    · dsimp only
      rw [hsm]
    · intro hc; cases hc
    · intro hc; cases hc
    · intro idx2 hidx
      cases hidx
      exact ⟨setLoop_length (!value) cnt b idx,
        fun k hk => setLoop_getD (!value) cnt b idx hrange k hk⟩

/-- Witness for c8_scan_and_flip: FirstFit on a 2-bit free bitmap with
count 1 finds index 0 and flips exactly bit 0 to true. -/
theorem c8_scan_and_flip_witness :
    ∃ b2, bitmap_scan_and_flip 0 [false, false] 0 1 false ⟨0, 0, 0⟩ 1 =
        some (.found 0, ⟨0, 0, 1⟩, b2) ∧
      (ScanRes.found 0 = .nf → b2 = [false, false]) ∧
      (ScanRes.found 0 = .panic → b2 = [false, false]) ∧
      (∀ idx, ScanRes.found 0 = .found idx → b2.length = ([false, false] : Bitmap).length ∧
        ∀ k, k < ([false, false] : Bitmap).length → b2.getD k false =
          if idx ≤ k ∧ k < idx + 1 then !false else List.getD [false, false] k false) :=
  c8_scan_and_flip 0 [false, false] 0 1 false ⟨0, 0, 0⟩ 1 (.found 0) ⟨0, 0, 1⟩ (by decide)

theorem buddyWalkN_succ_occupied (b : Bitmap) (cnt : Nat) (value : Bool) (limit bound : Nat)
    (n i off : Nat) (h1 : i < limit) (h2 : bitmap_test b i = some true) :
    buddyWalkN b cnt value limit bound i off (n + 1) =
      match buddyCountRun b limit i off with
      | Sum.inl r => r
      | Sum.inr off2 =>
        match buddyRound off2 with
        | none => .nf
        | some off3 => buddyWalkN b cnt value limit bound (i + max off3 (bound * 2)) off3 n := by
  simp only [buddyWalkN]
  rw [if_neg (by omega : ¬ i ≥ limit), h2]
  dsimp only
  cases hcr : buddyCountRun b limit i off with
  | inl r => rfl
  | inr off2 =>
    dsimp only
    cases hrd : buddyRound off2 with
    | none => rfl
    | some off3 =>
      dsimp only
      by_cases hc : off3 > bound * 2
      · rw [if_pos hc, show max off3 (bound * 2) = off3 from by omega]
      · rw [if_neg hc, show max off3 (bound * 2) = bound * 2 from by omega]

/-- Claim C5 counterexample: the accumulator is not reset between occupied
runs.  On v14 with count 2 (so bound 1, step 2) from the fresh state, the
code walk measures the first occupied run (length 3) as 3, rounds to 4 and
jumps to 4; at the second occupied run (length 1) the stale accumulator makes
it measure 4 + 1 = 5, round to 8 and jump to 12, returning 12 — whereas the
per-run walk the claim describes (specBuddyWalk) measures 1, advances by
bound*2 = 2 and returns 6.  The two walks disagree on the same input. -/
theorem c5_counterexample :
    bitmap_scan 3 v14 0 2 false ⟨0, 0, 0⟩ 20 = some (.found 12, ⟨0, 1, 2⟩) ∧
    specBuddyWalk v14 2 false 514 1 0 = .found 6 := by
  constructor
  · decide
  · decide

/-- Claim C5 (amended): at an occupied unit the buddy walk measures the
current accumulator PLUS the contiguous occupied-run length (the accumulator
holds the previous rounded value and is never reset), applies the > 256
failure and the power-of-two rounding ladder to that accumulated value,
advances by the larger of the rounded value and bound * 2, and continues
with the rounded value as the new accumulator; a run that reaches the walk
limit or an out-of-range probe ends the scan as in the code. -/
theorem c5_buddy_walk_amended (b : Bitmap) (cnt : Nat) (value : Bool) (limit bound i off : Nat)
    (h1 : i < limit) (h2 : bitmap_test b i = some true) :
    buddyWalk b cnt value limit bound i off =
      match buddyCountRun b limit i 0 with
      | Sum.inl r => r
      | Sum.inr runLen =>
        match buddyRound (off + runLen) with
        | none => .nf
        | some rnd => buddyWalk b cnt value limit bound (i + max rnd (bound * 2)) rnd := by
  have hshift : buddyCountRun b limit i off =
      (match buddyCountRun b limit i 0 with
       | Sum.inl r => Sum.inl r
       | Sum.inr k => Sum.inr (off + k)) :=
    buddyCountRunN_shift b limit (limit - i + 1) i off
  unfold buddyWalk
  rw [buddyWalkN_succ_occupied b cnt value limit bound (limit - i) i off h1 h2, hshift]
  cases hbase : buddyCountRun b limit i 0 with
  | inl r => rfl
  | inr runLen =>
    dsimp only
    cases hrd : buddyRound (off + runLen) with
    | none => rfl
    | some rnd =>
      dsimp only
      have hpos := buddyRound_pos (off + runLen) rnd hrd
      exact buddyWalkN_fuel b cnt value limit bound (limit - i)
        (limit - (i + max rnd (bound * 2)) + 1) (i + max rnd (bound * 2)) rnd
        (by omega) (by omega) (by omega) (by omega)

/-- Witness for c5_buddy_walk_amended: the second occupied run of v14 (single
bit at index 4) met with the stale accumulator 4. -/
theorem c5_buddy_walk_amended_witness :
    buddyWalk v14 2 false 514 1 4 4 =
      match buddyCountRun v14 514 4 0 with
      | Sum.inl r => r
      | Sum.inr runLen =>
        match buddyRound (4 + runLen) with
        | none => .nf
        | some rnd => buddyWalk v14 2 false 514 1 (4 + max rnd (1 * 2)) rnd :=
  c5_buddy_walk_amended v14 2 false 514 1 4 4 (by decide) (by decide)

/-- Claim C3 (amended): the cumulative-size accumulator check_size grows by
the cnt argument of EVERY bitmap_scan invocation (under any strategy) made
while the buddy invocation counter check_cnt is still below 3; check_cnt
itself increments exactly on buddy-strategy invocations that pass the
cnt <= bit_cnt precondition while below 3; and a buddy invocation with
cnt <= 512 starts its walk at offset 0 while the counter is below 3 and at
the accumulated check_size from the fourth buddy invocation on. -/
theorem c3_amended (pal : Nat) (b : Bitmap) (start cnt : Nat) (value : Bool) (st : ScanState)
    (fuel : Nat) (res : ScanRes) (st2 : ScanState)
    (hs : start ≤ b.length)
    (h : bitmap_scan pal b start cnt value st fuel = some (res, st2)) :
    (st2.check_size = if st.check_cnt < 3 then st.check_size + cnt else st.check_size) ∧
    (st2.check_cnt = if pal = 3 ∧ cnt ≤ b.length ∧ st.check_cnt < 3 then st.check_cnt + 1
      else st.check_cnt) ∧
    (pal = 3 → cnt ≤ b.length → cnt ≤ 512 →
      bitmap_scan pal b start cnt value st fuel =
        (buddyOuter b cnt value (512 + (scanStateUpd st cnt).check_size)
          (if st.check_cnt < 3 then 0 else st.check_size) 512 fuel).map
          (fun r => (r, if st.check_cnt < 3 then
              { scanStateUpd st cnt with check_cnt := st.check_cnt + 1 }
            else scanStateUpd st cnt))) := by
  have hcsz := scanStateUpd_check_size st cnt
  have hccn := scanStateUpd_check_cnt st cnt
  refine ⟨?_, ?_, ?_⟩
  · -- check_size evolution
    simp only [bitmap_scan] at h
    rw [if_pos hs] at h
    split at h
    · split at h
      · simp only [Option.some.injEq, Prod.mk.injEq] at h
        obtain ⟨-, hst⟩ := h
        rw [← hst]
        exact hcsz
      · split at h
        · cases hm1 : scanLoop b cnt value (b.length - cnt) (scanStateUpd st cnt).latest with
          | found i =>
            rw [hm1] at h
            simp only [Option.some.injEq, Prod.mk.injEq] at h
            obtain ⟨-, hst⟩ := h
            rw [← hst]
            exact hcsz
          | panic =>
            rw [hm1] at h
            simp only [Option.some.injEq, Prod.mk.injEq] at h
            obtain ⟨-, hst⟩ := h
            rw [← hst]
            exact hcsz
          | nf =>
            rw [hm1] at h
            cases hm2 : scanLoop b cnt value (scanStateUpd st cnt).latest start with
            | found i =>
              rw [hm2] at h
              simp only [Option.some.injEq, Prod.mk.injEq] at h
              obtain ⟨-, hst⟩ := h
              rw [← hst]
              exact hcsz
            | panic =>
              rw [hm2] at h
              simp only [Option.some.injEq, Prod.mk.injEq] at h
              obtain ⟨-, hst⟩ := h
              rw [← hst]
              exact hcsz
            | nf =>
              rw [hm2] at h
              simp only [Option.some.injEq, Prod.mk.injEq] at h
              obtain ⟨-, hst⟩ := h
              rw [← hst]
              exact hcsz
        · split at h
          · simp only [Option.some.injEq, Prod.mk.injEq] at h
            obtain ⟨-, hst⟩ := h
            rw [← hst]
            exact hcsz
          · split at h
            · split at h
              · simp only [Option.some.injEq, Prod.mk.injEq] at h
                obtain ⟨-, hst⟩ := h
                rw [← hst]
                split <;> rw [hcsz]
              · cases ho : buddyOuter b cnt value
                    (512 + (if (scanStateUpd st cnt).check_cnt < 3 then
                        { scanStateUpd st cnt with
                            check_cnt := (scanStateUpd st cnt).check_cnt + 1 }
                      else scanStateUpd st cnt).check_size)
                    (if (scanStateUpd st cnt).check_cnt < 3 then 0
                      else (scanStateUpd st cnt).check_size) 512 fuel with
                | none => rw [ho] at h; simp at h
                | some r =>
                  rw [ho] at h
                  simp only [Option.map_some', Option.some.injEq, Prod.mk.injEq] at h
                  obtain ⟨-, hst⟩ := h
                  rw [← hst]
                  split <;> rw [hcsz]
            · simp only [Option.some.injEq, Prod.mk.injEq] at h
              obtain ⟨-, hst⟩ := h
              rw [← hst]
              exact hcsz
    · simp only [Option.some.injEq, Prod.mk.injEq] at h
      obtain ⟨-, hst⟩ := h
      rw [← hst]
      exact hcsz
  · -- check_cnt evolution
    simp only [bitmap_scan] at h
    rw [if_pos hs] at h
    split at h
    · next hlen =>
      split at h
      · next hp0 =>
        simp only [Option.some.injEq, Prod.mk.injEq] at h
        obtain ⟨-, hst⟩ := h
        rw [← hst, hccn, if_neg (by rintro ⟨h3, -, -⟩; omega)]
      · next hp0 =>
        split at h
        · next hp1 =>
          have hfin : st2.check_cnt = st.check_cnt := by
            cases hm1 : scanLoop b cnt value (b.length - cnt) (scanStateUpd st cnt).latest with
            | found i =>
              rw [hm1] at h
              simp only [Option.some.injEq, Prod.mk.injEq] at h
              obtain ⟨-, hst⟩ := h
              rw [← hst]
              exact hccn
            | panic =>
              rw [hm1] at h
              simp only [Option.some.injEq, Prod.mk.injEq] at h
              obtain ⟨-, hst⟩ := h
              rw [← hst]
              exact hccn
            | nf =>
              rw [hm1] at h
              cases hm2 : scanLoop b cnt value (scanStateUpd st cnt).latest start with
              | found i =>
                rw [hm2] at h
                simp only [Option.some.injEq, Prod.mk.injEq] at h
                obtain ⟨-, hst⟩ := h
                rw [← hst]
                exact hccn
              | panic =>
                rw [hm2] at h
                simp only [Option.some.injEq, Prod.mk.injEq] at h
                obtain ⟨-, hst⟩ := h
                rw [← hst]
                exact hccn
              | nf =>
                rw [hm2] at h
                simp only [Option.some.injEq, Prod.mk.injEq] at h
                obtain ⟨-, hst⟩ := h
                rw [← hst]
                exact hccn
          rw [hfin, if_neg (by rintro ⟨h3, -, -⟩; omega)]
        · next hp1 =>
          split at h
          · next hp2 =>
            simp only [Option.some.injEq, Prod.mk.injEq] at h
            obtain ⟨-, hst⟩ := h
            rw [← hst, hccn, if_neg (by rintro ⟨h3, -, -⟩; omega)]
          · next hp2 =>
            split at h
            · next hp3 =>
              have hfin : st2.check_cnt =
                  if st.check_cnt < 3 then st.check_cnt + 1 else st.check_cnt := by
                split at h
                · simp only [Option.some.injEq, Prod.mk.injEq] at h
                  obtain ⟨-, hst⟩ := h
                  rw [← hst, hccn]
                  split
                  · rfl
                  · exact hccn
                · cases ho : buddyOuter b cnt value
                      (512 + (if (scanStateUpd st cnt).check_cnt < 3 then
                          { scanStateUpd st cnt with
                              check_cnt := (scanStateUpd st cnt).check_cnt + 1 }
                        else scanStateUpd st cnt).check_size)
                      (if (scanStateUpd st cnt).check_cnt < 3 then 0
                        else (scanStateUpd st cnt).check_size) 512 fuel with
                  | none => rw [ho] at h; simp at h
                  | some r =>
                    rw [ho] at h
                    simp only [Option.map_some', Option.some.injEq, Prod.mk.injEq] at h
                    obtain ⟨-, hst⟩ := h
                    rw [← hst, hccn]
                    split
                    · rfl
                    · exact hccn
              rw [hfin]
              by_cases h3 : st.check_cnt < 3
              · rw [if_pos h3, if_pos ⟨hp3, hlen, h3⟩]
              · rw [if_neg h3, if_neg (by rintro ⟨-, -, hc3⟩; omega)]
            · next hp3 =>
              simp only [Option.some.injEq, Prod.mk.injEq] at h
              obtain ⟨-, hst⟩ := h
              rw [← hst, hccn, if_neg (by rintro ⟨h3, -, -⟩; omega)]
    · next hlen =>
      simp only [Option.some.injEq, Prod.mk.injEq] at h
      obtain ⟨-, hst⟩ := h
      rw [← hst, hccn, if_neg (by rintro ⟨-, hc, -⟩; omega)]
  · -- walk start characterization
    intro hp hc h512
    subst hp
    simp only [bitmap_scan]
    rw [if_pos hs, if_pos hc]
    norm_num
    rw [if_neg (by omega : ¬ cnt > 512)]
    rw [hccn]
    by_cases h3 : st.check_cnt < 3
    · simp only [if_pos h3]
    · simp only [if_neg h3]
      rw [hcsz, if_neg h3]

/-- Witness for c3_amended: the first buddy invocation from the fresh state
(count 1 on a 4-bit free bitmap) bumps check_size to 1, bumps check_cnt to 1,
and walks from offset 0. -/
theorem c3_amended_witness :
    ((⟨0, 1, 1⟩ : ScanState).check_size = 0 + 1) ∧
    ((⟨0, 1, 1⟩ : ScanState).check_cnt = 0 + 1) ∧
    ((3 : Nat) = 3 → 1 ≤ List.length [false, false, false, false] → (1 : Nat) ≤ 512 →
      bitmap_scan 3 [false, false, false, false] 0 1 false ⟨0, 0, 0⟩ 12 =
        (buddyOuter [false, false, false, false] 1 false
          (512 + (scanStateUpd ⟨0, 0, 0⟩ 1).check_size) 0 512 12).map
          (fun r => (r, { scanStateUpd ⟨0, 0, 0⟩ 1 with check_cnt := 0 + 1 }))) :=
  c3_amended 3 [false, false, false, false] 0 1 false ⟨0, 0, 0⟩ 12 (.found 0) ⟨0, 1, 1⟩
    (by decide) (by decide)

/-- Claim C2 (amended): complete characterization of the best-fit selection.
The scan enters the loop from start with the no-incumbent sentinel
(idx = 99999999, stored measurement size = 0) and the loop behaves, at every
iteration, as follows: once the index reaches last it returns the incumbent,
or NOT_FOUND when the sentinel never changed; an occupied bit advances the
index by one; at a free bit the maximal free run is located (truncated at
last) and measured as its length MINUS ONE, a run qualifies when
count <= measurement, and a qualifying run replaces the incumbent exactly
when the stored measurement is 0 — which covers both an absent incumbent
and, when count = 0, an incumbent whose own measurement is 0, so such an
incumbent is displaced by every later qualifying run — or when the new
measurement is strictly smaller than the stored one.  Hence for count >= 1
the earliest qualifying run with the smallest measurement wins, replaced
only on strictly smaller measurement; for count = 0 a measurement-0
incumbent does not stick.  The stored-measurement invariant size = 0 or
count <= size holds at entry and at every replacement. -/
theorem c2_best_fit_selection (b : Bitmap) (cnt last idx size i n : Nat)
    (hlast : last ≤ b.length) (hsz : size = 0 ∨ cnt ≤ size) :
    (i ≥ last → bfLoopN b cnt last idx size i (n + 1) =
      (if idx = 99999999 then .nf else .found idx)) ∧
    (i < last → bitmap_test b i = some true →
      bfLoopN b cnt last idx size i (n + 1) = bfLoopN b cnt last idx size (i + 1) n) ∧
    (i < last → bitmap_test b i = some false →
      bfLoopN b cnt last idx size i (n + 1) =
        (if cnt ≤ bfFindEnd b last i - 1 - i ∧
            (size = 0 ∨ bfFindEnd b last i - 1 - i < size) then
          bfLoopN b cnt last i (bfFindEnd b last i - 1 - i) (bfFindEnd b last i) n
        else bfLoopN b cnt last idx size (bfFindEnd b last i) n)) ∧
    (∀ start value st fuel, start ≤ b.length → cnt ≤ b.length → last = b.length - cnt →
      bitmap_scan 2 b start cnt value st fuel =
        some (bfLoopN b cnt last 99999999 0 start (last - start + 2), scanStateUpd st cnt)) := by
  refine ⟨?_, ?_, ?_, ?_⟩
  · intro hi
    simp only [bfLoopN]
    rw [if_pos hi]
  · intro hi ht
    simp only [bfLoopN]
    rw [if_neg (by omega : ¬ i ≥ last), ht]
  · intro hi ht
    have hgetD : b.getD i false = false := by
      simp only [List.getD_eq_getElem?_getD, ← List.get?_eq_getElem?]
      rw [show b.get? i = some false from ht]
      rfl
    have hgt : i < bfFindEnd b last i := bfFindEnd_gt b last i
    have hle2 : bfFindEnd b last i ≤ last := bfFindEnd_le b last i hi
    have hcount : bitmap_count b i (bfFindEnd b last i - 1 - i) false =
        some (bfFindEnd b last i - 1 - i) := by
      unfold bitmap_count
      rw [if_pos ⟨by omega, by omega⟩]
      rw [countLoop_all b false (bfFindEnd b last i - 1 - i) i
        (fun k hk => bfFindEnd_false b last i hgetD (i + k) (by omega) (by omega))]
    simp only [bfLoopN]
    rw [if_neg (by omega : ¬ i ≥ last), ht]
    dsimp only
    rw [hcount]
    dsimp only
    by_cases hq : cnt ≤ bfFindEnd b last i - 1 - i
    · rw [if_pos hq]
      by_cases h0 : size = 0
      · rw [if_pos h0, if_pos ⟨hq, Or.inl h0⟩]
      · have hge : cnt ≤ size := by rcases hsz with h | h; exact absurd h h0; exact h
        rw [if_neg h0]
        by_cases hcmp : size - cnt > bfFindEnd b last i - 1 - i - cnt
        · rw [if_pos hcmp, if_pos ⟨hq, Or.inr (by omega)⟩]
        · rw [if_neg hcmp, if_neg ?hn]
          case hn =>
            rintro ⟨-, hc | hc⟩
            · exact h0 hc
            · omega
    · rw [if_neg hq, if_neg (by rintro ⟨hc, -⟩; exact hq hc)]
  · intro start value st fuel hs hc hl
    subst hl
    simp only [bitmap_scan]
    rw [if_pos hs, if_pos hc]
    norm_num
    rfl

/-- Witness for c2_best_fit_selection, exercising the count = 0 sentinel
quirk on [F,T,F,F,F]: the measurement-0 incumbent recorded at index 0 is
displaced at index 2 by a qualifying run of measurement 2 (selection step),
and the loop then returns 2 at exhaustion; the scan-entry equation is also
instantiated. -/
theorem c2_best_fit_selection_witness :
    bfLoopN [false, true, false, false, false] 0 5 0 0 2 (3 + 1) =
      bfLoopN [false, true, false, false, false] 0 5 2 2 5 3 ∧
    bfLoopN [false, true, false, false, false] 0 5 2 2 5 (0 + 1) = .found 2 ∧
    bitmap_scan 2 [false, true, false, false, false] 0 0 false ⟨0, 0, 0⟩ 1 =
      some (bfLoopN [false, true, false, false, false] 0 5 99999999 0 0 (5 - 0 + 2),
        scanStateUpd ⟨0, 0, 0⟩ 0) := by
  refine ⟨?_, ?_, ?_⟩
  · have h := (c2_best_fit_selection [false, true, false, false, false] 0 5 0 0 2 3
      (by decide) (Or.inl rfl)).2.2.1 (by decide) (by decide)
    rw [h]
    decide
  · have h := (c2_best_fit_selection [false, true, false, false, false] 0 5 2 2 5 0
      (by decide) (Or.inr (by decide))).1 (by decide)
    rw [h]
    decide
  · exact (c2_best_fit_selection [false, true, false, false, false] 0 5 0 0 0 0
      (by decide) (Or.inl rfl)).2.2.2 0 false ⟨0, 0, 0⟩ 1 (by decide) (by decide) (by decide)
